import Mathlib

set_option maxRecDepth 16384

/-!
Verification development for the Select AI query pipeline
(`pipeline_selectai.py`): a shallow embedding of the statement sanitizer
`clean_sql` and the executor `vision_execute` over `List Char`, together
with theorems about the sanitization policy.

Modelling conventions:
* Python strings are `List Char`; `str.strip()` is `pyStrip` (ASCII
  whitespace, which is exact for the ASCII statements the pipeline handles).
* Each regex of the source is translated into an explicit, deterministic
  character scanner (every regex used by the source backtracks trivially,
  so the scanners below compute exactly the leftmost match).
* `re`'s word characters `\w` are modelled as ASCII alphanumerics plus
  underscore, exact on ASCII text.
* `raise ValueError(msg)` is `Except.error msg`; the database, clock and
  audit log of `vision_execute` are abstracted into a `DbSpec` record and
  an explicit event trace.
-/

/-- Backtick character (code fences), written via its code point. -/
def btick : Char := Char.ofNat 96

/-- Single-quote character used by Python `repr` on the hold codes. -/
def squote : Char := Char.ofNat 39

/-- ASCII model of Python `str.strip()` whitespace / regex `\s`. -/
def pyIsSpace (c : Char) : Bool :=
  c = ' ' || c = '\t' || c = '\n' || c = '\r' || c = Char.ofNat 11 || c = Char.ofNat 12

/-- ASCII model of regex word characters `\w` (used for `\b` boundaries). -/
def isWordChar (c : Char) : Bool := c.isAlphanum || c = '_'

/-- Character class `[A-Za-z0-9_".]` of the FROM/JOIN target regex. -/
def isClassChar (c : Char) : Bool := c.isAlphanum || c = '_' || c = '"' || c = '.'

/-- Word boundary `\b` before a word character: the previous character
(`none` at start of string) must not be a word character. -/
def boundaryB : Option Char → Bool
  | none => true
  | some c => !isWordChar c

/-- Word boundary `\b` after a word character: the rest of the string is
empty or starts with a non-word character. -/
def boundaryA : List Char → Bool
  | [] => true
  | c :: _ => !isWordChar c

/-- Remove matching characters from the end of a list (Python `rstrip`). -/
def rstripP (q : Char → Bool) (l : List Char) : List Char :=
  (l.reverse.dropWhile q).reverse

/-- Python `str.strip()`: drop whitespace from both ends. -/
def pyStrip (l : List Char) : List Char :=
  rstripP pyIsSpace (l.dropWhile pyIsSpace)

/-- Python `str.rstrip(";")` as used on the raw statement. -/
def rstripSemi (l : List Char) : List Char :=
  rstripP (fun c => c = ';') l

/-- Tail of the input after the first newline, if any. -/
def afterNewline : List Char → Option (List Char)
  | [] => none
  | c :: r => if c = '\n' then some r else afterNewline r

/-- Effect of the alternative `^(three backticks).*?\n` of the code-fence
regex (`re.DOTALL`, non-greedy): if the text starts with three backticks
and contains a newline, everything up to and including the first newline
is removed; otherwise the text is unchanged. -/
def stripFenceHead (l : List Char) : List Char :=
  match l with
  | a :: b :: c :: rest =>
    if a = btick && b = btick && c = btick then
      match afterNewline rest with
      | some r => r
      | none => l
    else l
  | _ => l

/-- Effect of the alternative `\n(three backticks)$`: a trailing
newline-plus-fence is removed from the end. -/
def stripFenceTail (l : List Char) : List Char :=
  match l.reverse with
  | a :: b :: c :: d :: r =>
    if a = btick && b = btick && c = btick && d = '\n' then r.reverse else l
  | _ => l

/-- Case-insensitive literal matcher: consume `pat` (given in uppercase)
from the head of the input, comparing each input character uppercased;
return the remaining input on success. -/
def matchCI : List Char → List Char → Option (List Char)
  | [], l => some l
  | _ :: _, [] => none
  | p :: ps, c :: cs => if c.toUpper = p then matchCI ps cs else none

/-- Case-sensitive literal matcher (for the one regex the source compiles
without `re.I`, the ORDER-BY column-reference test). -/
def matchEq : List Char → List Char → Option (List Char)
  | [], l => some l
  | _ :: _, [] => none
  | p :: ps, c :: cs => if c = p then matchEq ps cs else none

/-- Source schema name the generator assumes (`HOL_AGENT_05`), uppercase. -/
def holKW : List Char := "HOL_AGENT_05".data

/-- Default Vision schema (`V_USER.upper()` for the default user `apps`). -/
def appsStr : List Char := "APPS".data

/-- Tail of the schema-qualifier pattern `"?HOL_AGENT_05"?\.`: after the
schema name, an optional closing quote followed by a literal dot. -/
def schemaTail : List Char → Option (List Char)
  | [] => none
  | c :: cs =>
    if c = '.' then some cs
    else
      if c = '"' then
        match cs with
        | d :: ds => if d = '.' then some ds else none
        | [] => none
      else none

/-- Match of the full pattern `"?HOL_AGENT_05"?\.` (case-insensitive) at
the head of the input; returns the input after the match. -/
def schemaMatch : List Char → Option (List Char)
  | [] => none
  | c :: rest =>
    if c = '"' then (matchCI holKW rest).bind schemaTail
    else (matchCI holKW (c :: rest)).bind schemaTail

/-- Fueled left-to-right `re.sub` scan for the schema-qualifier rewrite:
each match is replaced by `tgt` followed by a dot and scanning resumes
after the match. -/
def schemaRewriteF (tgt : List Char) : Nat → List Char → List Char
  | _, [] => []
  | 0, l => l
  | f + 1, c :: cs =>
    match schemaMatch (c :: cs) with
    | some rest => tgt ++ '.' :: schemaRewriteF tgt f rest
    | none => c :: schemaRewriteF tgt f cs

/-- Schema-qualifier rewrite (line 124 of the source): replace every
occurrence of `"?HOL_AGENT_05"?\.` by the target schema plus a dot. -/
def schemaRewrite (tgt : List Char) (l : List Char) : List Char :=
  schemaRewriteF tgt l.length l

/-- Text preprocessing of `clean_sql` before any validation: strip,
remove code fences, strip trailing semicolons, then (when a Vision
schema was detected) rewrite schema qualifiers. -/
def preprocess (vs : Option (List Char)) (sql : List Char) : List Char :=
  let s := rstripSemi (stripFenceTail (stripFenceHead (pyStrip sql)))
  match vs with
  | none => s
  | some tgt => schemaRewrite tgt s

/-- Forbidden DML/DDL keywords of the source's rejection regex, uppercase. -/
def kwList : List (List Char) :=
  ["INSERT".data, "UPDATE".data, "DELETE".data, "MERGE".data, "CREATE".data,
   "ALTER".data, "DROP".data, "GRANT".data, "REVOKE".data, "TRUNCATE".data]

/-- Does some forbidden keyword match at the head of `l`, with a word
boundary after it? -/
def kwAt (l : List Char) : Bool :=
  kwList.any fun kw =>
    match matchCI kw l with
    | some r => boundaryA r
    | none => false

/-- Scan for `\b(insert|update|...|truncate)\b`, case-insensitive,
tracking the previous character for the left word boundary. -/
def forbiddenAux : Option Char → List Char → Bool
  | _, [] => false
  | prev, c :: cs => (boundaryB prev && kwAt (c :: cs)) || forbiddenAux (some c) cs

/-- Forbidden-keyword scan of `clean_sql` (line 128 of the source). -/
def forbiddenScan (l : List Char) : Bool := forbiddenAux none l

/-- Keywords `FROM` and `JOIN` of the table-allowlist regex. -/
def fromKW : List Char := "FROM".data

/-- Keyword `JOIN` of the table-allowlist regex. -/
def joinKW : List Char := "JOIN".data

/-- Match of `(from|join)\s+([A-Za-z0-9_".]+)` at the head of the input
(the left boundary is checked by the caller): returns the captured
target and the remaining input. -/
def fjMatchAt (l : List Char) : Option (List Char × List Char) :=
  match (matchCI fromKW l).orElse (fun _ => matchCI joinKW l) with
  | none => none
  | some r1 =>
    let sp := r1.takeWhile pyIsSpace
    if sp.isEmpty then none
    else
      let r2 := r1.drop sp.length
      let obj := r2.takeWhile isClassChar
      if obj.isEmpty then none else some (obj, r2.drop obj.length)

/-- Fueled `re.findall` scan for FROM/JOIN targets; after a match the
scan resumes after the captured target. -/
def fjAux : Nat → Option Char → List Char → List (List Char)
  | 0, _, _ => []
  | _ + 1, _, [] => []
  | f + 1, prev, c :: cs =>
    if boundaryB prev then
      match fjMatchAt (c :: cs) with
      | some (obj, rest) => obj :: fjAux f obj.getLast? rest
      | none => fjAux f (some c) cs
    else fjAux f (some c) cs

/-- All FROM/JOIN targets of a statement, in order (line 132). -/
def fjTargets (l : List Char) : List (List Char) := fjAux l.length none l

/-- Python `obj.split(".")` on character lists (keeps empty segments). -/
def splitDotAux : List Char → List Char → List (List Char)
  | acc, [] => [acc.reverse]
  | acc, c :: cs => if c = '.' then acc.reverse :: splitDotAux [] cs else splitDotAux (c :: acc) cs

/-- Split a target on dots, as the source does to isolate the table name. -/
def splitDot (l : List Char) : List (List Char) := splitDotAux [] l

/-- Python `p.strip('"')`: remove double quotes from both ends. -/
def stripQuotes (l : List Char) : List Char :=
  rstripP (fun c => c = '"') (l.dropWhile (fun c => c = '"'))

/-- Final identifier segment of a FROM/JOIN target: split on dots, strip
quotes from each part, take the last part, uppercase (lines 133-134). -/
def finalSegUp (obj : List Char) : List Char :=
  (((splitDot obj).map stripQuotes).getLastD []).map Char.toUpper

/-- The single allowed table (`META_TBL`). -/
def allowedTbl : List Char := "AP_HOLDS_ALL".data

/-- Predicate selecting a disallowed FROM/JOIN target. -/
def badTbl (obj : List Char) : Bool := !(finalSegUp obj == allowedTbl)

/-- Keyword `FETCH` of the row-limit regex. -/
def fetchKW : List Char := "FETCH".data

/-- Keyword `FIRST` of the row-limit regex. -/
def firstKW : List Char := "FIRST".data

/-- Length of a match of `FETCH\s+FIRST\b.*` at the head of the input
(the left boundary is checked by the caller); `.*` runs to the end of
the line since the search is compiled without `re.DOTALL`. -/
def fetchMatchLen (l : List Char) : Option Nat :=
  match matchCI fetchKW l with
  | none => none
  | some r1 =>
    let sp := r1.takeWhile pyIsSpace
    if sp.isEmpty then none
    else
      match matchCI firstKW (r1.drop sp.length) with
      | none => none
      | some r3 =>
        if boundaryA r3 then
          some (5 + sp.length + 5 + (r3.takeWhile (fun c => !(c = '\n'))).length)
        else none

/-- Leftmost match of `\bFETCH\s+FIRST\b.*`: start index and length. -/
def fetchFindAux : Option Char → List Char → Option (Nat × Nat)
  | _, [] => none
  | prev, c :: cs =>
    if boundaryB prev then
      match fetchMatchLen (c :: cs) with
      | some k => some (0, k)
      | none => (fetchFindAux (some c) cs).map fun ik => (ik.1 + 1, ik.2)
    else (fetchFindAux (some c) cs).map fun ik => (ik.1 + 1, ik.2)

/-- Split off the row-limit clause (lines 140-143): the body is the
stripped text before the match, the fetch part the stripped match. -/
def splitFetch (l : List Char) : List Char × List Char :=
  match fetchFindAux none l with
  | none => (l, [])
  | some (i, k) => (pyStrip (l.take i), pyStrip ((l.drop i).take k))

/-- Keyword `ORDER` of the order-clause regex. -/
def orderKW : List Char := "ORDER".data

/-- Keyword `BY` of the order-clause regex. -/
def byKW : List Char := "BY".data

/-- Length of a match of `ORDER\s+BY\b[^\n;]*` at the head of the input
(left boundary checked by the caller). -/
def orderMatchLen (l : List Char) : Option Nat :=
  match matchCI orderKW l with
  | none => none
  | some r1 =>
    let sp := r1.takeWhile pyIsSpace
    if sp.isEmpty then none
    else
      match matchCI byKW (r1.drop sp.length) with
      | none => none
      | some r3 =>
        if boundaryA r3 then
          some (5 + sp.length + 2 + (r3.takeWhile (fun c => !(c = '\n') && !(c = ';'))).length)
        else none

/-- Leftmost match of `\bORDER\s+BY\b[^\n;]*`: start index and length. -/
def orderFindAux : Option Char → List Char → Option (Nat × Nat)
  | _, [] => none
  | prev, c :: cs =>
    if boundaryB prev then
      match orderMatchLen (c :: cs) with
      | some k => some (0, k)
      | none => (orderFindAux (some c) cs).map fun ik => (ik.1 + 1, ik.2)
    else (orderFindAux (some c) cs).map fun ik => (ik.1 + 1, ik.2)

/-- Split off the order clause (lines 144-147). -/
def splitOrder (l : List Char) : List Char × List Char :=
  match orderFindAux none l with
  | none => (l, [])
  | some (i, k) => (pyStrip (l.take i), pyStrip ((l.drop i).take k))

/-- Characters accepted as a column reference after `ORDER BY` in the
case-sensitive check of line 150: `[A-Za-z0-9_".]`. -/
def isOrdColChar (c : Char) : Bool := c.isAlphanum || c = '_' || c = '"' || c = '.'

/-- Match of the case-sensitive pattern `ORDER\s+BY\s+[A-Za-z0-9_".]` at
the head of the input (note: the source compiles this search without
`re.I`, unlike every other pattern). -/
def orderColAt (l : List Char) : Bool :=
  match matchEq orderKW l with
  | none => false
  | some r1 =>
    let sp := r1.takeWhile pyIsSpace
    if sp.isEmpty then false
    else
      match matchEq byKW (r1.drop sp.length) with
      | none => false
      | some r3 =>
        let sp2 := r3.takeWhile pyIsSpace
        if sp2.isEmpty then false
        else
          match r3.drop sp2.length with
          | c :: _ => isOrdColChar c
          | [] => false

/-- Search for the case-sensitive column-reference pattern anywhere in
the order clause. -/
def orderColCheck : List Char → Bool
  | [] => false
  | c :: cs => orderColAt (c :: cs) || orderColCheck cs

/-- Default order clause substituted on line 151. -/
def defaultOrder : List Char := "ORDER BY \"HOLD_DATE\" ASC".data

/-- Order-clause correction (lines 150-151): a nonempty order clause
that fails the case-sensitive column-reference check is replaced by the
default; an absent clause stays absent. -/
def fixOrder (op : List Char) : List Char :=
  if op.isEmpty then op
  else if orderColCheck op then op else defaultOrder

/-- Keyword `WHERE` of the predicate-injection regex. -/
def whereKW : List Char := "WHERE".data

/-- Is the given matcher remainder a successful match with a word
boundary after it? -/
def wordTailOK : Option (List Char) → Bool
  | some r => boundaryA r
  | none => false

/-- Does `\bwhere\b` (case-insensitive) match at the head of the input? -/
def whereHead (prev : Option Char) (l : List Char) : Bool :=
  boundaryB prev && wordTailOK (matchCI whereKW l)

/-- Leftmost standalone `where`: returns the text before it, the matched
word itself and the text after it. -/
def whereSplit (prev : Option Char) : List Char → Option (List Char × List Char × List Char)
  | [] => none
  | c :: cs =>
    if whereHead prev (c :: cs) then some ([], (c :: cs).take 5, (c :: cs).drop 5)
    else
      match whereSplit (some c) cs with
      | some (p, w, q) => some (c :: p, w, q)
      | none => none

/-- Hold codes of the policy (`HOLD_CODES`). -/
def holdCodes : List (List Char) :=
  ["QTY ORD".data, "QTY REC".data, "PRICE".data, "AMT ORG".data]

/-- Join a list of character lists with a separator (Python `sep.join`). -/
def joinWith (sep : List Char) : List (List Char) → List Char
  | [] => []
  | [p] => p
  | p :: q :: r => p ++ sep ++ joinWith sep (q :: r)

/-- Python `repr` of a simple hold-code string: single quotes around it. -/
def quoteLit (l : List Char) : List Char := squote :: l ++ [squote]

/-- Mandatory predicates of lines 154-159 (`FORCE_RELEASE_NULL` is true). -/
def fixedPreds : List (List Char) :=
  ["RELEASE_LOOKUP_CODE IS NULL".data,
   "HOLD_LOOKUP_CODE IN (".data ++ joinWith ", ".data (holdCodes.map quoteLit) ++ ")".data]

/-- Mandatory predicates ANDed together (`inject` of line 160). -/
def injectStr : List Char := joinWith " AND ".data fixedPreds

/-- WHERE-clause injection (lines 161-164): replace the first standalone
`where` by `WHERE <inject> AND`, or append `WHERE <inject>` if none. -/
def injectWhere (b : List Char) : List Char :=
  match whereSplit none b with
  | some (p, _, q) => p ++ ("WHERE ".data ++ injectStr ++ " AND".data) ++ q
  | none => b ++ (" WHERE ".data ++ injectStr)

/-- Default row-limit clause appended on line 168. -/
def defaultFetch : List Char := "FETCH FIRST 100 ROWS ONLY".data

/-- Reassembly of line 170: join the stripped body, order clause and
fetch clause with single spaces, dropping empty parts, then strip. -/
def assemble (b op fp : List Char) : List Char :=
  pyStrip (joinWith " ".data (([pyStrip b, op, fp]).filter (fun p => !p.isEmpty)))

/-- Message of the empty-input rejection (line 116). -/
def emptyMsg : List Char := "SQL이 비어 있습니다.".data

/-- Message of the DML/DDL rejection (line 129). -/
def forbiddenMsg : List Char := "DML/DDL 문장은 허용되지 않습니다.".data

/-- Prefix of the disallowed-table rejection message (line 136). -/
def tblMsgPre : List Char := "허용되지 않은 테이블이 포함되어 있습니다: ".data

/-- The sanitizer `clean_sql` (lines 113-172): validates and rewrites a
raw statement, returning the sanitized statement or the message of the
`ValueError` it raises. `vs` is the detected Vision schema `V_SCHEMA`. -/
def cleanSql (vs : Option (List Char)) (sql : List Char) : Except (List Char) (List Char) :=
  if (pyStrip sql).isEmpty then Except.error emptyMsg
  else
    let t := preprocess vs sql
    if forbiddenScan t then Except.error forbiddenMsg
    else
      match (fjTargets t).find? badTbl with
      | some obj => Except.error (tblMsgPre ++ obj)
      | none =>
        let pf := splitFetch t
        let po := splitOrder pf.1
        let op := fixOrder po.2
        let body := injectWhere po.1
        let fp := if pf.2.isEmpty then defaultFetch else pf.2
        Except.ok (assemble body op fp)

/-- Observable database-side effects of one `vision_execute` call. -/
inductive DbEvent
  | connected
  | executed (q : List Char)
  | logWrite (line : List Char)
deriving DecidableEq

/-- Abstract environment of `vision_execute`: whether the Vision
connection opens, what `cur.execute` does for a given statement (an
`oracledb.Error` message or a fetched row count), whether appending to
`vision_sql.log` succeeds, the `OSError` text when it does not, and the
text `datetime.now()` renders to. -/
structure DbSpec where
  connOk : Bool
  connErrMsg : List Char
  execOut : List Char → Except (List Char) Nat
  logOk : Bool
  logErrMsg : List Char
  now : List Char

/-- Value returned by `vision_execute`: the fetched rows (abstracted to
their count) or the single-element error payload `[{"error": .., "sql": ..}]`. -/
inductive VisionResult
  | rows (n : Nat)
  | errPayload (error : List Char) (sql : List Char)
deriving DecidableEq

/-- Error text built for an `oracledb.Error` (line 193). -/
def oraMsg (m : List Char) : List Char := "Oracle DB 오류 발생: ".data ++ m

/-- Error text built for any other exception (line 197); a `ValueError`
raised by `clean_sql` renders as its message. -/
def genMsg (m : List Char) : List Char := "일반 오류 발생: ".data ++ m

/-- Audit-log line of line 188: timestamp, final SQL and row count. -/
def logLine (now q : List Char) (n : Nat) : List Char :=
  '\n' :: '[' :: now ++ "] ".data ++ q ++ "\n결과: ".data ++ (Nat.repr n).data ++ "건\n".data

/-- The executor `vision_execute` (lines 174-199): sanitize, connect,
execute, log, and catch every exception into an error payload. Returns
the result together with the trace of database-side effects. -/
def visionExecute (db : DbSpec) (vs : Option (List Char)) (sql : List Char) :
    VisionResult × List DbEvent :=
  match cleanSql vs sql with
  | Except.error e => (VisionResult.errPayload (genMsg e) sql, [])
  | Except.ok q =>
    if db.connOk then
      match db.execOut q with
      | Except.error m =>
        (VisionResult.errPayload (oraMsg m) sql, [DbEvent.connected, DbEvent.executed q])
      | Except.ok n =>
        if db.logOk then
          (VisionResult.rows n,
           [DbEvent.connected, DbEvent.executed q, DbEvent.logWrite (logLine db.now q n)])
        else
          (VisionResult.errPayload (genMsg db.logErrMsg) sql,
           [DbEvent.connected, DbEvent.executed q])
    else (VisionResult.errPayload (oraMsg db.connErrMsg) sql, [])

/-- Combined matcher for a suffix of the schema-name pattern followed by
the optional-quote-dot tail; used to reason about the rewrite scan. -/
def matchPT (p l : List Char) : Option (List Char) := (matchCI p l).bind schemaTail

theorem matchCI_length {p l r : List Char} (h : matchCI p l = some r) :
    l.length = p.length + r.length := by
  induction p generalizing l with
  | nil => simp [matchCI] at h; simp [h]
  | cons a ps ih =>
    cases l with
    | nil => simp [matchCI] at h
    | cons c cs =>
      simp only [matchCI] at h
      split at h
      · have := ih h; simp [this]; omega
      · exact absurd h (by simp)

theorem matchCI_sound {p l r : List Char} (h : matchCI p l = some r) :
    ∃ w, l = w ++ r ∧ w.map Char.toUpper = p := by
  induction p generalizing l with
  | nil =>
    refine ⟨[], ?_, rfl⟩
    simpa [matchCI] using h
  | cons a ps ih =>
    cases l with
    | nil => simp [matchCI] at h
    | cons c cs =>
      simp only [matchCI] at h
      split at h
      · obtain ⟨w, hw, hmap⟩ := ih h
        next hc => exact ⟨c :: w, by simp [hw], by simp [hmap, hc]⟩
      · exact absurd h (by simp)

theorem matchCI_complete {p w r : List Char} (hw : w.map Char.toUpper = p) :
    matchCI p (w ++ r) = some r := by
  induction w generalizing p with
  | nil => simp at hw; subst hw; simp [matchCI]
  | cons c cs ih =>
    subst hw
    simp [matchCI, ih rfl]

theorem schemaTail_length {l r : List Char} (h : schemaTail l = some r) :
    r.length + 1 ≤ l.length := by
  cases l with
  | nil => simp [schemaTail] at h
  | cons c cs =>
    simp only [schemaTail] at h
    split at h
    · cases h; simp
    · split at h
      · cases cs with
        | nil => simp at h
        | cons d ds =>
          simp only at h
          split at h
          · cases h; simp
          · exact absurd h (by simp)
      · exact absurd h (by simp)

theorem schemaMatch_length {l r : List Char} (h : schemaMatch l = some r) :
    r.length + 13 ≤ l.length := by
  have h12 : holKW.length = 12 := rfl
  cases l with
  | nil => simp [schemaMatch] at h
  | cons c cs =>
    simp only [schemaMatch] at h
    split at h
    · cases hm : matchCI holKW cs with
      | none => rw [hm] at h; simp at h
      | some m =>
        rw [hm] at h; simp at h
        have h1 := matchCI_length hm
        have h2 := schemaTail_length h
        simp
        omega
    · cases hm : matchCI holKW (c :: cs) with
      | none => rw [hm] at h; simp at h
      | some m =>
        rw [hm] at h; simp at h
        have h1 := matchCI_length hm
        have h2 := schemaTail_length h
        simp at h1
        simp
        omega

theorem srF_irrel (tgt : List Char) :
    ∀ f g l, l.length ≤ f → l.length ≤ g → schemaRewriteF tgt f l = schemaRewriteF tgt g l := by
  intro f
  induction f with
  | zero =>
    intro g l hf _
    have : l = [] := by cases l <;> simp_all
    subst this
    cases g <;> simp [schemaRewriteF]
  | succ f ih =>
    intro g l hf hg
    cases l with
    | nil => cases g <;> simp [schemaRewriteF]
    | cons c cs =>
      cases g with
      | zero => simp at hg
      | succ g =>
        cases hm : schemaMatch (c :: cs) with
        | some rest =>
          have hlen := schemaMatch_length hm
          simp only [schemaRewriteF, hm]
          simp at hf hg hlen
          rw [ih g rest (by omega) (by omega)]
        | none =>
          simp only [schemaRewriteF, hm]
          simp at hf hg
          rw [ih g cs (by omega) (by omega)]

theorem sr_cons_some {c : Char} {cs rest : List Char} (tgt : List Char)
    (h : schemaMatch (c :: cs) = some rest) :
    schemaRewrite tgt (c :: cs) = tgt ++ '.' :: schemaRewrite tgt rest := by
  have hlen := schemaMatch_length h
  simp only [schemaRewrite, List.length_cons, schemaRewriteF, h]
  simp at hlen
  rw [srF_irrel tgt cs.length rest.length rest (by omega) (by omega)]

theorem sr_cons_none {c : Char} {cs : List Char} (tgt : List Char)
    (h : schemaMatch (c :: cs) = none) :
    schemaRewrite tgt (c :: cs) = c :: schemaRewrite tgt cs := by
  simp only [schemaRewrite, List.length_cons, schemaRewriteF, h]

theorem schemaMatch_none_of_head {c : Char} {l : List Char}
    (h1 : ¬c = '"') (h2 : ¬c.toUpper = 'H') : schemaMatch (c :: l) = none := by
  simp only [schemaMatch, if_neg h1]
  have : matchCI holKW (c :: l) = none := by
    show matchCI ('H' :: "OL_AGENT_05".data) (c :: l) = none
    simp [matchCI, h2]
  simp [this]

theorem matchPT_apps_none (k : Nat) (T : List Char) :
    matchPT (holKW.drop k) ('A' :: 'P' :: 'P' :: 'S' :: '.' :: T) = none := by
  match k with
  | 0 | 1 | 2 | 3 | 4 | 5 | 6 | 7 | 8 | 9 | 10 | 11 => rfl
  | n + 12 =>
    rw [List.drop_eq_nil_of_le (by have h12 : holKW.length = 12 := rfl; omega)]
    rfl

theorem schemaTail_rewrite_none {d : Char} {ds : List Char}
    (h : schemaTail (d :: ds) = none) :
    schemaTail (d :: schemaRewrite appsStr ds) = none := by
  by_cases hd : d = '.'
  · simp [schemaTail, hd] at h
  · by_cases hq : d = '"'
    · subst hq
      cases ds with
      | nil => rfl
      | cons e es =>
        have he : ¬e = '.' := by
          intro he
          simp [schemaTail, hd, he] at h
        cases hm : schemaMatch (e :: es) with
        | some rest =>
          rw [sr_cons_some appsStr hm]
          rfl
        | none =>
          rw [sr_cons_none appsStr hm]
          simp [schemaTail, he]
    · simp [schemaTail, hd, hq]

theorem matchPT_rewrite_none :
    ∀ n cs, cs.length ≤ n → ∀ k, matchPT (holKW.drop k) cs = none →
      matchPT (holKW.drop k) (schemaRewrite appsStr cs) = none := by
  intro n
  induction n with
  | zero =>
    intro cs hcs k h
    have hnil : cs = [] := by cases cs <;> simp_all
    subst hnil
    exact h
  | succ n ih =>
    intro cs hcs k h
    cases cs with
    | nil => exact h
    | cons d ds =>
      cases hm : schemaMatch (d :: ds) with
      | some rest =>
        rw [sr_cons_some appsStr hm]
        exact matchPT_apps_none k _
      | none =>
        rw [sr_cons_none appsStr hm]
        cases hp : holKW.drop k with
        | nil =>
          rw [hp] at h
          have h' : schemaTail (d :: ds) = none := by simpa [matchPT, matchCI] using h
          simpa [matchPT, matchCI] using schemaTail_rewrite_none h'
        | cons x p' =>
          rw [hp] at h
          by_cases hdx : d.toUpper = x
          · have hp' : holKW.drop (k + 1) = p' := by
              have h1 := List.drop_drop 1 k holKW
              rw [hp] at h1
              exact (by simpa [Nat.add_comm] using h1 : p' = holKW.drop (k + 1)).symm
            have hds : matchPT p' ds = none := by
              simpa [matchPT, matchCI, hdx] using h
            have hlen : ds.length ≤ n := by simp at hcs; omega
            have := ih ds hlen (k + 1) (by rw [hp']; exact hds)
            rw [hp'] at this
            simpa [matchPT, matchCI, hdx] using this
          · simp [matchPT, matchCI, hdx]

theorem schemaMatch_rewrite_none {c : Char} {cs : List Char}
    (h : schemaMatch (c :: cs) = none) :
    schemaMatch (c :: schemaRewrite appsStr cs) = none := by
  by_cases hc : c = '"'
  · subst hc
    simp only [schemaMatch, if_pos rfl] at h ⊢
    exact matchPT_rewrite_none cs.length cs le_rfl 0 h
  · by_cases hH : c.toUpper = 'H'
    · simp only [schemaMatch, if_neg hc] at h ⊢
      have e1 : ∀ X, matchCI holKW (c :: X) = matchCI ("OL_AGENT_05".data) X := by
        intro X
        show matchCI ('H' :: "OL_AGENT_05".data) (c :: X) = _
        simp [matchCI, hH]
      rw [e1] at h
      rw [e1]
      exact matchPT_rewrite_none cs.length cs le_rfl 1 h
    · exact schemaMatch_none_of_head hc hH

theorem sr_apps_passthrough (T : List Char) :
    schemaRewrite appsStr ('A' :: 'P' :: 'P' :: 'S' :: '.' :: T) =
      'A' :: 'P' :: 'P' :: 'S' :: '.' :: schemaRewrite appsStr T := by
  rw [sr_cons_none appsStr (schemaMatch_none_of_head (by decide) (by decide))]
  rw [sr_cons_none appsStr (schemaMatch_none_of_head (by decide) (by decide))]
  rw [sr_cons_none appsStr (schemaMatch_none_of_head (by decide) (by decide))]
  rw [sr_cons_none appsStr (schemaMatch_none_of_head (by decide) (by decide))]
  rw [sr_cons_none appsStr (schemaMatch_none_of_head (by decide) (by decide))]

theorem sr_idem_aux : ∀ n l, l.length ≤ n →
    schemaRewrite appsStr (schemaRewrite appsStr l) = schemaRewrite appsStr l := by
  intro n
  induction n with
  | zero =>
    intro l h
    have hnil : l = [] := by cases l <;> simp_all
    subst hnil
    rfl
  | succ n ih =>
    intro l h
    cases l with
    | nil => rfl
    | cons c cs =>
      cases hm : schemaMatch (c :: cs) with
      | some rest =>
        rw [sr_cons_some appsStr hm]
        have hlen := schemaMatch_length hm
        show schemaRewrite appsStr ('A' :: 'P' :: 'P' :: 'S' :: '.' :: schemaRewrite appsStr rest) = _
        rw [sr_apps_passthrough, ih rest (by simp at h hlen ⊢; omega)]
        rfl
      | none =>
        rw [sr_cons_none appsStr hm,
            sr_cons_none appsStr (schemaMatch_rewrite_none hm),
            ih cs (by simp at h; omega)]

/-- C7: the schema-qualifier rewrite with the runtime target schema
(`APPS`, the detected Vision schema) is idempotent — applying it twice
yields the same string as applying it once — and rewriting a qualifier
that already reads `APPS.` changes nothing. -/
theorem claim_C7 (s : List Char) :
    schemaRewrite appsStr (schemaRewrite appsStr s) = schemaRewrite appsStr s ∧
    ∀ t, schemaRewrite appsStr (appsStr ++ '.' :: t) = appsStr ++ '.' :: schemaRewrite appsStr t := by
  refine ⟨sr_idem_aux s.length s le_rfl, fun t => ?_⟩
  exact sr_apps_passthrough t

/-- C1 (amended): for every raw statement that is not blank and whose
preprocessed text — stripped, fence-removed, semicolon-stripped,
schema-rewritten — still contains a forbidden keyword as a standalone
word (case-insensitively), `clean_sql` raises the DML/DDL `ValueError`,
whatever the FROM/JOIN targets are: the rejection fires before the
table-allowlist check. The original claim quantified over keywords
anywhere in the raw text, which fails for keywords inside the stripped
code-fence marker line. -/
theorem claim_C1 {vs : Option (List Char)} {s : List Char}
    (h0 : (pyStrip s).isEmpty = false)
    (h1 : forbiddenScan (preprocess vs s) = true) :
    cleanSql vs s = Except.error forbiddenMsg := by
  simp [cleanSql, h0, h1]

/-- C1 witness: the spec's forbidden-statement scenario
`DELETE FROM AP_HOLDS_ALL WHERE HOLD_ID = 1` is rejected. -/
theorem claim_C1_witness :
    (pyStrip "DELETE FROM AP_HOLDS_ALL WHERE HOLD_ID = 1".data).isEmpty = false ∧
    forbiddenScan (preprocess (some appsStr) "DELETE FROM AP_HOLDS_ALL WHERE HOLD_ID = 1".data) = true ∧
    cleanSql (some appsStr) "DELETE FROM AP_HOLDS_ALL WHERE HOLD_ID = 1".data =
      Except.error forbiddenMsg :=
  ⟨rfl, rfl, claim_C1 rfl rfl⟩

/-- C1 counterexample: the raw statement
`(fence)drop(newline)SELECT * FROM AP_HOLDS_ALL` contains the forbidden
keyword `drop` as a standalone word, yet `clean_sql` does not reject it:
the keyword sits in the code-fence marker line, which is stripped before
the forbidden-keyword scan, so a sanitized statement is returned. -/
theorem claim_C1_counterexample :
    forbiddenScan "```drop\nSELECT * FROM AP_HOLDS_ALL".data = true ∧
    cleanSql (some appsStr) "```drop\nSELECT * FROM AP_HOLDS_ALL".data =
      Except.ok ("SELECT * FROM AP_HOLDS_ALL WHERE RELEASE_LOOKUP_CODE IS NULL AND HOLD_LOOKUP_CODE IN ('QTY ORD', 'QTY REC', 'PRICE', 'AMT ORG') FETCH FIRST 100 ROWS ONLY".data) :=
  ⟨rfl, rfl⟩

/-- C10: the sanitizer has exactly two outcomes — a sanitized statement
or a `ValueError` — and every rejection is one of the three message
texts (empty input, forbidden keyword, disallowed table); no other error
shape exists at the interface. -/
theorem claim_C10 (vs : Option (List Char)) (s e : List Char)
    (h : cleanSql vs s = Except.error e) :
    e = emptyMsg ∨ e = forbiddenMsg ∨
      ∃ obj, obj ∈ fjTargets (preprocess vs s) ∧ badTbl obj = true ∧ e = tblMsgPre ++ obj := by
  unfold cleanSql at h
  split at h
  · simp at h
    exact Or.inl h.symm
  · dsimp only at h
    split at h
    · simp at h
      exact Or.inr (Or.inl h.symm)
    · split at h
      next obj hobj =>
        simp at h
        exact Or.inr (Or.inr ⟨obj, List.mem_of_find?_eq_some hobj,
          List.find?_some hobj, h.symm⟩)
      next => simp at h

/-- C10 witness: the empty statement is rejected with the empty-input
message, which is one of the three `ValueError` texts. -/
theorem claim_C10_witness :
    cleanSql (some appsStr) [] = Except.error emptyMsg ∧
    (emptyMsg = emptyMsg ∨ emptyMsg = forbiddenMsg ∨
      ∃ obj, obj ∈ fjTargets (preprocess (some appsStr) []) ∧ badTbl obj = true ∧
        emptyMsg = tblMsgPre ++ obj) :=
  ⟨rfl, claim_C10 (some appsStr) [] emptyMsg rfl⟩

/-- C2: on a statement that passes the earlier checks, any FROM/JOIN
target whose final identifier segment — quotes stripped, uppercased —
differs from the allowed table makes `clean_sql` raise `TableNotAllowed`
carrying that (first offending) identifier; if every target's final
segment equals the allowed table, the statement is accepted whatever its
schema qualifiers are. -/
theorem claim_C2 (vs : Option (List Char)) (s : List Char)
    (h0 : (pyStrip s).isEmpty = false)
    (h1 : forbiddenScan (preprocess vs s) = false) :
    (∀ obj, (fjTargets (preprocess vs s)).find? badTbl = some obj →
      finalSegUp obj ≠ allowedTbl ∧ cleanSql vs s = Except.error (tblMsgPre ++ obj)) ∧
    ((∀ obj, obj ∈ fjTargets (preprocess vs s) → finalSegUp obj = allowedTbl) →
      ∃ r, cleanSql vs s = Except.ok r) := by
  constructor
  · intro obj hobj
    have hbad := List.find?_some hobj
    simp [badTbl] at hbad
    exact ⟨hbad, by simp [cleanSql, h0, h1, hobj]⟩
  · intro hall
    have hfind : (fjTargets (preprocess vs s)).find? badTbl = none := by
      rw [List.find?_eq_none]
      intro x hx
      simp [badTbl, hall x hx]
    refine ⟨assemble (injectWhere (splitOrder (splitFetch (preprocess vs s)).1).1)
      (fixOrder (splitOrder (splitFetch (preprocess vs s)).1).2)
      (if (splitFetch (preprocess vs s)).2.isEmpty then defaultFetch
       else (splitFetch (preprocess vs s)).2), ?_⟩
    simp [cleanSql, h0, h1, hfind]

/-- C2 witness: `SELECT * FROM OTHER_TABLE` is rejected carrying the
identifier `OTHER_TABLE`. -/
theorem claim_C2_witness :
    (fjTargets (preprocess (some appsStr) "SELECT * FROM OTHER_TABLE".data)).find? badTbl =
      some "OTHER_TABLE".data ∧
    finalSegUp "OTHER_TABLE".data ≠ allowedTbl ∧
    cleanSql (some appsStr) "SELECT * FROM OTHER_TABLE".data =
      Except.error (tblMsgPre ++ "OTHER_TABLE".data) := by
  refine ⟨rfl, ?_, ?_⟩
  · exact ((claim_C2 (some appsStr) "SELECT * FROM OTHER_TABLE".data rfl rfl).1
      "OTHER_TABLE".data rfl).1
  · exact ((claim_C2 (some appsStr) "SELECT * FROM OTHER_TABLE".data rfl rfl).1
      "OTHER_TABLE".data rfl).2

/-- C4: validation failures are fail-fast — when `clean_sql` raises, the
executor performs no database action at all (empty effect trace) and
returns the caught error as a payload; and whenever an `execute` event
occurs in a trace, the statement it carries is exactly the sanitizer's
output, never the raw statement. -/
theorem claim_C4 (db : DbSpec) (vs : Option (List Char)) (sql : List Char) :
    (∀ e, cleanSql vs sql = Except.error e →
      visionExecute db vs sql = (VisionResult.errPayload (genMsg e) sql, [])) ∧
    (∀ q, DbEvent.executed q ∈ (visionExecute db vs sql).2 →
      cleanSql vs sql = Except.ok q) := by
  constructor
  · intro e he
    simp [visionExecute, he]
  · intro q hq
    cases hc : cleanSql vs sql with
    | error e => simp [visionExecute, hc] at hq
    | ok q' =>
      suffices hqq : q = q' by rw [hqq]
      by_cases hco : db.connOk
      · cases hex : db.execOut q' with
        | error m =>
          simp [visionExecute, hc, hco, hex] at hq
          exact hq
        | ok n =>
          by_cases hlog : db.logOk
          · simp [visionExecute, hc, hco, hex, hlog] at hq
            exact hq
          · simp [visionExecute, hc, hco, hex, hlog] at hq
            exact hq
      · simp [visionExecute, hc, hco] at hq

/-- C4 witness: on the rejected statement `SELECT * FROM OTHER_TABLE`
the executor touches no database and returns the error payload. -/
theorem claim_C4_witness :
    cleanSql (some appsStr) "SELECT * FROM OTHER_TABLE".data =
      Except.error (tblMsgPre ++ "OTHER_TABLE".data) ∧
    visionExecute (DbSpec.mk true [] (fun _ => Except.ok 0) true [] []) (some appsStr)
        "SELECT * FROM OTHER_TABLE".data =
      (VisionResult.errPayload (genMsg (tblMsgPre ++ "OTHER_TABLE".data))
        "SELECT * FROM OTHER_TABLE".data, []) :=
  ⟨rfl, (claim_C4 (DbSpec.mk true [] (fun _ => Except.ok 0) true [] []) (some appsStr)
    "SELECT * FROM OTHER_TABLE".data).1 (tblMsgPre ++ "OTHER_TABLE".data) rfl⟩

/-- C8 (amended): connection and execution faults are caught and
returned as a structured `(error, sql)` payload rather than propagated;
but the payload's `sql` field carries the raw input statement of the
call, not the sanitized statement that was actually executed. -/
theorem claim_C8 (db : DbSpec) (vs : Option (List Char)) (sql q : List Char)
    (hq : cleanSql vs sql = Except.ok q) :
    (db.connOk = false →
      visionExecute db vs sql = (VisionResult.errPayload (oraMsg db.connErrMsg) sql, [])) ∧
    (∀ m, db.connOk = true → db.execOut q = Except.error m →
      visionExecute db vs sql =
        (VisionResult.errPayload (oraMsg m) sql, [DbEvent.connected, DbEvent.executed q])) := by
  constructor
  · intro hc
    simp [visionExecute, hq, hc]
  · intro m hc he
    simp [visionExecute, hq, hc, he]

/-- C8 witness: a connection fault surfaces as an `(error, sql)` payload
with no exception propagated. -/
theorem claim_C8_witness :
    cleanSql (some appsStr) "SELECT * FROM AP_HOLDS_ALL WHERE HOLD_ID = 1".data =
      Except.ok "SELECT * FROM AP_HOLDS_ALL WHERE RELEASE_LOOKUP_CODE IS NULL AND HOLD_LOOKUP_CODE IN ('QTY ORD', 'QTY REC', 'PRICE', 'AMT ORG') AND HOLD_ID = 1 FETCH FIRST 100 ROWS ONLY".data ∧
    visionExecute (DbSpec.mk false "ORA-12541".data (fun _ => Except.ok 0) true [] [])
        (some appsStr) "SELECT * FROM AP_HOLDS_ALL WHERE HOLD_ID = 1".data =
      (VisionResult.errPayload (oraMsg "ORA-12541".data)
        "SELECT * FROM AP_HOLDS_ALL WHERE HOLD_ID = 1".data, []) :=
  ⟨rfl, (claim_C8 (DbSpec.mk false "ORA-12541".data (fun _ => Except.ok 0) true [] [])
    (some appsStr) "SELECT * FROM AP_HOLDS_ALL WHERE HOLD_ID = 1".data
    "SELECT * FROM AP_HOLDS_ALL WHERE RELEASE_LOOKUP_CODE IS NULL AND HOLD_LOOKUP_CODE IN ('QTY ORD', 'QTY REC', 'PRICE', 'AMT ORG') AND HOLD_ID = 1 FETCH FIRST 100 ROWS ONLY".data rfl).1 rfl⟩

/-- C8 counterexample: on an execution fault the payload's `sql` field
is the raw statement, which differs from the sanitized statement that
was handed to the database — the claim that it carries the sanitized
SQL is false. -/
theorem claim_C8_counterexample :
    cleanSql (some appsStr) "SELECT * FROM AP_HOLDS_ALL".data =
      Except.ok "SELECT * FROM AP_HOLDS_ALL WHERE RELEASE_LOOKUP_CODE IS NULL AND HOLD_LOOKUP_CODE IN ('QTY ORD', 'QTY REC', 'PRICE', 'AMT ORG') FETCH FIRST 100 ROWS ONLY".data ∧
    "SELECT * FROM AP_HOLDS_ALL WHERE RELEASE_LOOKUP_CODE IS NULL AND HOLD_LOOKUP_CODE IN ('QTY ORD', 'QTY REC', 'PRICE', 'AMT ORG') FETCH FIRST 100 ROWS ONLY".data ≠
      "SELECT * FROM AP_HOLDS_ALL".data ∧
    visionExecute (DbSpec.mk true [] (fun _ => Except.error "ORA-00904".data) true [] [])
        (some appsStr) "SELECT * FROM AP_HOLDS_ALL".data =
      (VisionResult.errPayload (oraMsg "ORA-00904".data) "SELECT * FROM AP_HOLDS_ALL".data,
       [DbEvent.connected, DbEvent.executed
         "SELECT * FROM AP_HOLDS_ALL WHERE RELEASE_LOOKUP_CODE IS NULL AND HOLD_LOOKUP_CODE IN ('QTY ORD', 'QTY REC', 'PRICE', 'AMT ORG') FETCH FIRST 100 ROWS ONLY".data]) :=
  ⟨rfl, by decide, rfl⟩

/-- C9 (amended): every successful execution writes one timestamped
audit line containing the final SQL and the row count; but a failure of
that log write is caught like any other exception and converts the
request into an error payload — the fetched rows are then not returned. -/
theorem claim_C9 (db : DbSpec) (vs : Option (List Char)) (sql q : List Char) (n : Nat)
    (hq : cleanSql vs sql = Except.ok q) (hc : db.connOk = true)
    (he : db.execOut q = Except.ok n) :
    (db.logOk = true →
      visionExecute db vs sql =
        (VisionResult.rows n,
         [DbEvent.connected, DbEvent.executed q, DbEvent.logWrite (logLine db.now q n)])) ∧
    (db.logOk = false →
      visionExecute db vs sql =
        (VisionResult.errPayload (genMsg db.logErrMsg) sql,
         [DbEvent.connected, DbEvent.executed q])) := by
  constructor <;> intro hl <;> simp [visionExecute, hq, hc, he, hl]

/-- C9 witness: a successful run writes the audit line with the final
SQL and the row count, and returns the rows. -/
theorem claim_C9_witness :
    cleanSql (some appsStr) "SELECT * FROM AP_HOLDS_ALL".data =
      Except.ok "SELECT * FROM AP_HOLDS_ALL WHERE RELEASE_LOOKUP_CODE IS NULL AND HOLD_LOOKUP_CODE IN ('QTY ORD', 'QTY REC', 'PRICE', 'AMT ORG') FETCH FIRST 100 ROWS ONLY".data ∧
    visionExecute (DbSpec.mk true [] (fun _ => Except.ok 2) true [] "2025-01-01 00:00:00".data)
        (some appsStr) "SELECT * FROM AP_HOLDS_ALL".data =
      (VisionResult.rows 2,
       [DbEvent.connected,
        DbEvent.executed "SELECT * FROM AP_HOLDS_ALL WHERE RELEASE_LOOKUP_CODE IS NULL AND HOLD_LOOKUP_CODE IN ('QTY ORD', 'QTY REC', 'PRICE', 'AMT ORG') FETCH FIRST 100 ROWS ONLY".data,
        DbEvent.logWrite (logLine "2025-01-01 00:00:00".data
          "SELECT * FROM AP_HOLDS_ALL WHERE RELEASE_LOOKUP_CODE IS NULL AND HOLD_LOOKUP_CODE IN ('QTY ORD', 'QTY REC', 'PRICE', 'AMT ORG') FETCH FIRST 100 ROWS ONLY".data 2)]) :=
  ⟨rfl, (claim_C9 (DbSpec.mk true [] (fun _ => Except.ok 2) true [] "2025-01-01 00:00:00".data)
    (some appsStr) "SELECT * FROM AP_HOLDS_ALL".data
    "SELECT * FROM AP_HOLDS_ALL WHERE RELEASE_LOOKUP_CODE IS NULL AND HOLD_LOOKUP_CODE IN ('QTY ORD', 'QTY REC', 'PRICE', 'AMT ORG') FETCH FIRST 100 ROWS ONLY".data 2 rfl rfl rfl).1 rfl⟩

/-- C9 counterexample: when the audit-log write fails after a successful
execution, the exception is caught and an error payload is returned —
the fetched rows are lost, so a log failure does fail the request. -/
theorem claim_C9_counterexample :
    visionExecute (DbSpec.mk true [] (fun _ => Except.ok 3) false "disk full".data [])
        (some appsStr) "SELECT * FROM AP_HOLDS_ALL".data =
      (VisionResult.errPayload (genMsg "disk full".data) "SELECT * FROM AP_HOLDS_ALL".data,
       [DbEvent.connected, DbEvent.executed
         "SELECT * FROM AP_HOLDS_ALL WHERE RELEASE_LOOKUP_CODE IS NULL AND HOLD_LOOKUP_CODE IN ('QTY ORD', 'QTY REC', 'PRICE', 'AMT ORG') FETCH FIRST 100 ROWS ONLY".data]) ∧
    ∀ n, VisionResult.errPayload (genMsg "disk full".data) "SELECT * FROM AP_HOLDS_ALL".data ≠
      VisionResult.rows n := by
  constructor
  · rfl
  · intro n h
    cases h

theorem isWordChar_of_toUpper {c : Char} (h : isWordChar c.toUpper = true) :
    isWordChar c = true := by
  by_cases hl : c.isLower = true
  · simp [isWordChar, Char.isAlphanum, Char.isAlpha, hl]
  · have he : c.toUpper = c := by
      unfold Char.toUpper
      dsimp only
      split
      · next hn =>
        exfalso
        apply hl
        simp [Char.isLower]
        exact hn
      · rfl
    rwa [he] at h

theorem dropWhile_head_false {p : Char → Bool} {l : List Char} {c : Char} {t : List Char}
    (h : l.dropWhile p = c :: t) : p c = false := by
  induction l with
  | nil => simp at h
  | cons d ds ih =>
    rw [List.dropWhile_cons] at h
    split at h
    · exact ih h
    · cases h
      next hd => simpa using hd

theorem suffix_dropWhile {p : Char → Bool} {x y : List Char}
    (hhead : ∀ c, x.head? = some c → p c = false) (h : x <:+ y) :
    x <:+ y.dropWhile p := by
  obtain ⟨a, rfl⟩ := h
  induction a with
  | nil =>
    cases x with
    | nil => simp
    | cons c t =>
      simp only [List.nil_append, List.dropWhile_cons, hhead c rfl]
      simp
  | cons d a' ih =>
    rw [List.cons_append, List.dropWhile_cons]
    split
    · exact ih
    · exact (List.suffix_append a' x).trans (List.suffix_cons d _)

theorem infix_dropWhile {p : Char → Bool} {x y : List Char}
    (hhead : ∀ c, x.head? = some c → p c = false) (h : x <:+: y) :
    x <:+: y.dropWhile p := by
  obtain ⟨a, b, rfl⟩ := h
  induction a with
  | nil =>
    cases x with
    | nil => simp
    | cons c t =>
      rw [List.nil_append, List.cons_append, List.dropWhile_cons, hhead c rfl]
      simp only [Bool.false_eq_true, if_false]
      exact ⟨[], b, by simp⟩
  | cons d a' ih =>
    rw [List.cons_append, List.cons_append, List.dropWhile_cons]
    split
    · exact ih
    · exact List.infix_cons ⟨a', b, rfl⟩

theorem rstripP_eq_of_last {q : Char → Bool} {y : List Char}
    (hlast : ∀ c, y.getLast? = some c → q c = false) : rstripP q y = y := by
  unfold rstripP
  cases hy : y.reverse with
  | nil =>
    have : y = [] := by simpa using congrArg List.reverse hy
    simp [this]
  | cons c t =>
    have hc : y.getLast? = some c := by
      rw [← List.head?_reverse, hy]
      rfl
    rw [List.dropWhile_cons, hlast c hc]
    simp only [Bool.false_eq_true, if_false]
    rw [← hy, List.reverse_reverse]

theorem suffix_rstripP {q : Char → Bool} {x y : List Char} (hx : x ≠ [])
    (hlast : ∀ c, x.getLast? = some c → q c = false) (h : x <:+ y) :
    x <:+ rstripP q y := by
  have hy : y.getLast? = x.getLast? := by
    obtain ⟨a, rfl⟩ := h
    exact List.getLast?_append_of_ne_nil a hx
  rw [rstripP_eq_of_last (fun c hc => hlast c (hy ▸ hc))]
  exact h

theorem infix_rstripP {q : Char → Bool} {x y : List Char}
    (hlast : ∀ c, x.getLast? = some c → q c = false) (h : x <:+: y) :
    x <:+: rstripP q y := by
  unfold rstripP
  rw [← List.reverse_infix]
  rw [List.reverse_reverse]
  apply infix_dropWhile
  · intro c hc
    rw [List.head?_reverse] at hc
    exact hlast c hc
  · rw [← List.reverse_infix] at h
    exact h

theorem suffix_pyStrip {x y : List Char} (hx : x ≠ [])
    (hhead : ∀ c, x.head? = some c → pyIsSpace c = false)
    (hlast : ∀ c, x.getLast? = some c → pyIsSpace c = false)
    (h : x <:+ y) : x <:+ pyStrip y :=
  suffix_rstripP hx hlast (suffix_dropWhile hhead h)

theorem infix_pyStrip {x y : List Char}
    (hhead : ∀ c, x.head? = some c → pyIsSpace c = false)
    (hlast : ∀ c, x.getLast? = some c → pyIsSpace c = false)
    (h : x <:+: y) : x <:+: pyStrip y :=
  infix_rstripP hlast (infix_dropWhile hhead h)

theorem joinWith_last {sep : List Char} : ∀ (ps : List (List Char)) (x : List Char),
    ∃ z, joinWith sep (ps ++ [x]) = z ++ x := by
  intro ps
  induction ps with
  | nil => exact fun x => ⟨[], rfl⟩
  | cons p ps ih =>
    intro x
    obtain ⟨z, hz⟩ := ih x
    cases hq : ps ++ [x] with
    | nil => simp at hq
    | cons q rest =>
      refine ⟨p ++ sep ++ z, ?_⟩
      rw [List.cons_append, hq]
      show p ++ sep ++ joinWith sep (q :: rest) = p ++ sep ++ z ++ x
      rw [← hq, hz]
      simp

theorem joinWith_head {sep : List Char} (x : List Char) (ps : List (List Char)) :
    ∃ z, joinWith sep (x :: ps) = x ++ z := by
  cases ps with
  | nil => exact ⟨[], by simp [joinWith]⟩
  | cons q rest => exact ⟨sep ++ joinWith sep (q :: rest), by simp [joinWith]⟩

theorem filter_three_last {pr : List Char → Bool} (a b c : List Char) (hc : pr c = true) :
    ∃ ps, [a, b, c].filter pr = ps ++ [c] := by
  by_cases ha : pr a = true
  · by_cases hb : pr b = true
    · exact ⟨[a, b], by simp [List.filter, ha, hb, hc]⟩
    · exact ⟨[a], by simp [List.filter, ha, hb, hc]⟩
  · by_cases hb : pr b = true
    · exact ⟨[b], by simp [List.filter, ha, hb, hc]⟩
    · exact ⟨[], by simp [List.filter, ha, hb, hc]⟩

theorem filter_three_head {pr : List Char → Bool} (a b c : List Char) (ha : pr a = true) :
    ∃ ps, [a, b, c].filter pr = a :: ps := by
  by_cases hb : pr b = true
  · by_cases hc : pr c = true
    · exact ⟨[b, c], by simp [List.filter, ha, hb, hc]⟩
    · exact ⟨[b], by simp [List.filter, ha, hb, hc]⟩
  · by_cases hc : pr c = true
    · exact ⟨[c], by simp [List.filter, ha, hb, hc]⟩
    · exact ⟨[], by simp [List.filter, ha, hb, hc]⟩

theorem notEmpty_true {l : List Char} (h : l ≠ []) : (!l.isEmpty) = true := by
  cases l with
  | nil => exact absurd rfl h
  | cons a t => rfl

theorem assemble_suffix {b op fp : List Char} (hfp : fp ≠ [])
    (hhead : ∀ c, fp.head? = some c → pyIsSpace c = false)
    (hlast : ∀ c, fp.getLast? = some c → pyIsSpace c = false) :
    fp <:+ assemble b op fp := by
  unfold assemble
  obtain ⟨ps, hps⟩ := @filter_three_last (fun p => !p.isEmpty) (pyStrip b) op fp (notEmpty_true hfp)
  rw [hps]
  obtain ⟨z, hz⟩ := joinWith_last ps fp
  rw [hz]
  exact suffix_pyStrip hfp hhead hlast (List.suffix_append z fp)

theorem assemble_infix {x b op fp : List Char}
    (hhead : ∀ c, x.head? = some c → pyIsSpace c = false)
    (hlast : ∀ c, x.getLast? = some c → pyIsSpace c = false)
    (hx : x ≠ []) (h : x <:+: b) :
    x <:+: assemble b op fp := by
  unfold assemble
  have h1 : x <:+: pyStrip b := infix_pyStrip hhead hlast h
  have hb : pyStrip b ≠ [] := by
    intro hbnil
    rw [hbnil] at h1
    simp at h1
    exact hx h1
  obtain ⟨ps, hps⟩ := @filter_three_head (fun p => !p.isEmpty) (pyStrip b) op fp (notEmpty_true hb)
  rw [hps]
  obtain ⟨z, hz⟩ := joinWith_head (pyStrip b) ps
  rw [hz]
  refine infix_pyStrip hhead hlast ?_
  exact h1.trans ⟨[], z, by simp⟩

theorem getLast?_cons_or (c : Char) (p : List Char) :
    (c :: p).getLast? = (p.getLast?).or (some c) := by
  cases p with
  | nil => rfl
  | cons d ds =>
    rw [List.getLast?_cons_cons]
    cases hd : (d :: ds).getLast? with
    | none => simp at hd
    | some e => simp

theorem whereSplit_sound {prev : Option Char} {l p w q : List Char}
    (h : whereSplit prev l = some (p, w, q)) :
    l = p ++ w ++ q ∧ w.map Char.toUpper = whereKW ∧ boundaryA q = true ∧
      boundaryB ((p.getLast?).or prev) = true := by
  induction l generalizing prev p with
  | nil => simp [whereSplit] at h
  | cons c cs ih =>
    simp only [whereSplit] at h
    split at h
    · next hwh =>
      simp only [Option.some.injEq, Prod.mk.injEq] at h
      obtain ⟨hp, hw, hq⟩ := h
      subst hp
      subst hw
      subst hq
      simp only [whereHead, Bool.and_eq_true] at hwh
      obtain ⟨hbb, hrest⟩ := hwh
      cases hm : matchCI whereKW (c :: cs) with
      | none => rw [hm] at hrest; simp [wordTailOK] at hrest
      | some r =>
        rw [hm] at hrest
        simp only [wordTailOK] at hrest
        obtain ⟨w5, hw5, hmap⟩ := matchCI_sound hm
        have h5 : w5.length = 5 := by
          have := congrArg List.length hmap
          simpa [whereKW] using this
        have htake : (c :: cs).take 5 = w5 := by
          rw [hw5]
          exact List.take_left' h5
        have hdrop : (c :: cs).drop 5 = r := by
          rw [hw5]
          exact List.drop_left' h5
        refine ⟨?_, ?_, ?_, ?_⟩
        · rw [htake, hdrop]
          simpa using hw5
        · rw [htake]
          exact hmap
        · rw [hdrop]
          exact hrest
        · simpa using hbb
    · next hwh =>
      cases hin : whereSplit (some c) cs with
      | none => rw [hin] at h; simp at h
      | some t =>
        obtain ⟨p', w', q'⟩ := t
        rw [hin] at h
        simp only [Option.some.injEq, Prod.mk.injEq] at h
        obtain ⟨hp, hw, hq⟩ := h
        subst hp
        rw [hw, hq] at hin
        obtain ⟨hcs, hmapw, hbA, hbB⟩ := ih hin
        refine ⟨?_, hmapw, hbA, ?_⟩
        · rw [hcs]
          simp
        · rw [getLast?_cons_or]
          cases hpl : p'.getLast? with
          | none =>
            rw [hpl] at hbB
            simpa using hbB
          | some e =>
            rw [hpl] at hbB
            simpa using hbB

theorem whereSplit_minimal {prev : Option Char} {l p w q : List Char}
    (h : whereSplit prev l = some (p, w, q)) : whereSplit prev p = none := by
  induction l generalizing prev p with
  | nil => simp [whereSplit] at h
  | cons c cs ih =>
    simp only [whereSplit] at h
    split at h
    · simp only [Option.some.injEq, Prod.mk.injEq] at h
      obtain ⟨hp, _, _⟩ := h
      subst hp
      rfl
    · next hwh =>
      cases hin : whereSplit (some c) cs with
      | none => rw [hin] at h; simp at h
      | some t =>
        obtain ⟨p', w', q'⟩ := t
        rw [hin] at h
        simp only [Option.some.injEq, Prod.mk.injEq] at h
        obtain ⟨hp, hw, hq⟩ := h
        subst hp
        rw [hw, hq] at hin
        have ihm := ih hin
        obtain ⟨hcs, hmapw, hbA, hbB⟩ := whereSplit_sound hin
        have hfalse : whereHead prev (c :: p') = false := by
          by_contra hcon
          rw [Bool.not_eq_false] at hcon
          simp only [whereHead, Bool.and_eq_true] at hcon
          obtain ⟨hbb, hrest⟩ := hcon
          cases hm : matchCI whereKW (c :: p') with
          | none => rw [hm] at hrest; simp [wordTailOK] at hrest
          | some r =>
            rw [hm] at hrest
            simp only [wordTailOK] at hrest
            obtain ⟨w5, hw5, hmap⟩ := matchCI_sound hm
            have h5 : w5.length = 5 := by
              have := congrArg List.length hmap
              simpa [whereKW] using this
            cases r with
            | nil =>
              rw [List.append_nil] at hw5
              have hp'len : p'.length = 4 := by
                have := congrArg List.length hw5
                simp [h5] at this
                omega
              have hlastE : ∃ d, p'.getLast? = some d ∧ d.toUpper = 'E' := by
                have h1 : (w5.map Char.toUpper).getLast? = some 'E' := by
                  rw [hmap]
                  rfl
                rw [List.getLast?_map] at h1
                cases hgl : w5.getLast? with
                | none => rw [hgl] at h1; simp at h1
                | some d =>
                  rw [hgl] at h1
                  simp at h1
                  refine ⟨d, ?_, h1⟩
                  rw [← hw5] at hgl
                  cases p' with
                  | nil => simp at hp'len
                  | cons e es => rwa [List.getLast?_cons_cons] at hgl
              obtain ⟨d, hd1, hd2⟩ := hlastE
              rw [hd1] at hbB
              simp only [Option.or_some, boundaryB] at hbB
              have hdw : isWordChar d = true := isWordChar_of_toUpper (by rw [hd2]; decide)
              rw [hdw] at hbB
              simp at hbB
            | cons xx r' =>
              apply hwh
              simp only [whereHead, Bool.and_eq_true]
              refine ⟨hbb, ?_⟩
              have hm2 : matchCI whereKW (c :: cs) = some ((xx :: r') ++ w ++ q) := by
                rw [hcs]
                rw [show c :: (p' ++ w ++ q) = w5 ++ ((xx :: r') ++ w ++ q) by
                  rw [show c :: (p' ++ w ++ q) = (c :: p') ++ w ++ q by simp, hw5]
                  simp]
                exact matchCI_complete hmap
              rw [hm2]
              simp only [wordTailOK]
              simpa [boundaryA] using hrest
        rw [whereSplit, hfalse, ihm]
        simp

theorem rstripP_lead (q : Char → Bool) (y : List Char) : ∃ w, y = rstripP q y ++ w := by
  refine ⟨(y.reverse.takeWhile q).reverse, ?_⟩
  have h1 : (y.reverse.takeWhile q ++ y.reverse.dropWhile q).reverse = y := by
    rw [List.takeWhile_append_dropWhile, List.reverse_reverse]
  calc y = (y.reverse.takeWhile q ++ y.reverse.dropWhile q).reverse := h1.symm
    _ = (y.reverse.dropWhile q).reverse ++ (y.reverse.takeWhile q).reverse := by
        rw [List.reverse_append]
    _ = rstripP q y ++ (y.reverse.takeWhile q).reverse := rfl

theorem rstripP_last_false {q : Char → Bool} {z : List Char} {c : Char}
    (h : (rstripP q z).getLast? = some c) : q c = false := by
  unfold rstripP at h
  rw [List.getLast?_reverse] at h
  cases hd : z.reverse.dropWhile q with
  | nil => rw [hd] at h; simp at h
  | cons d t =>
    rw [hd] at h
    simp at h
    rw [← h]
    exact dropWhile_head_false hd

theorem pyStrip_head_false {l : List Char} {c : Char}
    (h : (pyStrip l).head? = some c) : pyIsSpace c = false := by
  obtain ⟨w, hw⟩ := rstripP_lead pyIsSpace (l.dropWhile pyIsSpace)
  have hw' : l.dropWhile pyIsSpace = pyStrip l ++ w := hw
  cases hs : pyStrip l with
  | nil => rw [hs] at h; simp at h
  | cons d t =>
    rw [hs] at h
    simp at h
    rw [hs] at hw'
    rw [← h]
    exact dropWhile_head_false (by simpa using hw')

theorem pyStrip_last_false {l : List Char} {c : Char}
    (h : (pyStrip l).getLast? = some c) : pyIsSpace c = false :=
  rstripP_last_false h

theorem cleanSql_ok_inv {vs : Option (List Char)} {s r : List Char}
    (h : cleanSql vs s = Except.ok r) :
    (pyStrip s).isEmpty = false ∧
    forbiddenScan (preprocess vs s) = false ∧
    (fjTargets (preprocess vs s)).find? badTbl = none ∧
    r = assemble (injectWhere (splitOrder (splitFetch (preprocess vs s)).1).1)
          (fixOrder (splitOrder (splitFetch (preprocess vs s)).1).2)
          (if (splitFetch (preprocess vs s)).2.isEmpty then defaultFetch
           else (splitFetch (preprocess vs s)).2) := by
  unfold cleanSql at h
  split at h
  · simp at h
  · next h0 =>
    dsimp only at h
    split at h
    · simp at h
    · next h1 =>
      split at h
      · simp at h
      · next h2 =>
        simp only [Except.ok.injEq] at h
        exact ⟨by simpa using h0, by simpa using h1, h2, h.symm⟩

theorem isEmpty_false_of_ne {l : List Char} (h : l ≠ []) : l.isEmpty = false := by
  cases l with
  | nil => exact absurd rfl h
  | cons a t => rfl

/-- C3: on every statement that passes validation, the mandatory
predicates are injected into the body: the first standalone `WHERE`
(case-insensitive, word-boundary matched — no standalone `where` occurs
earlier) is replaced by `WHERE <predicates> AND`, or `WHERE <predicates>`
is appended to the end of the body when it has none; in either case the
returned statement contains `WHERE <predicates>` — the mandatory
predicates are never omitted and never replaced. -/
theorem claim_C3 (vs : Option (List Char)) (s r : List Char)
    (h : cleanSql vs s = Except.ok r) :
    ∃ B op fp, B = (splitOrder (splitFetch (preprocess vs s)).1).1 ∧
      r = assemble (injectWhere B) op fp ∧
      (whereSplit none B = none → injectWhere B = B ++ (" WHERE ".data ++ injectStr)) ∧
      (∀ p w q, whereSplit none B = some (p, w, q) →
        B = p ++ w ++ q ∧ w.map Char.toUpper = whereKW ∧ whereSplit none p = none ∧
          injectWhere B = p ++ ("WHERE ".data ++ injectStr ++ " AND".data) ++ q) ∧
      ("WHERE ".data ++ injectStr) <:+: r := by
  obtain ⟨h0, h1, h2, hr⟩ := cleanSql_ok_inv h
  refine ⟨(splitOrder (splitFetch (preprocess vs s)).1).1, _, _, rfl, hr, ?_, ?_, ?_⟩
  · intro hw
    simp [injectWhere, hw]
  · intro p w q hw
    obtain ⟨hb, hmap, _, _⟩ := whereSplit_sound hw
    exact ⟨hb, hmap, whereSplit_minimal hw, by simp [injectWhere, hw]⟩
  · have hxh : ∀ c, ("WHERE ".data ++ injectStr).head? = some c → pyIsSpace c = false := by
      intro c hc
      rw [show ("WHERE ".data ++ injectStr).head? = some 'W' from rfl] at hc
      cases hc
      decide
    have hxl : ∀ c, ("WHERE ".data ++ injectStr).getLast? = some c → pyIsSpace c = false := by
      intro c hc
      rw [show ("WHERE ".data ++ injectStr).getLast? = some ')' from rfl] at hc
      cases hc
      decide
    have hxne : ("WHERE ".data ++ injectStr) ≠ [] := by simp
    rw [hr]
    apply assemble_infix hxh hxl hxne
    cases hw : whereSplit none ((splitOrder (splitFetch (preprocess vs s)).1).1) with
    | none =>
      simp only [injectWhere, hw]
      refine ⟨(splitOrder (splitFetch (preprocess vs s)).1).1 ++ [' '], [], ?_⟩
      simp
    | some t =>
      obtain ⟨p, w, q⟩ := t
      simp only [injectWhere, hw]
      refine ⟨p, " AND".data ++ q, ?_⟩
      simp

/-- C3 witness: the spec's minimal valid scenario — the mandatory
predicates are injected ahead of the model-supplied condition. -/
theorem claim_C3_witness :
    cleanSql (some appsStr) "SELECT * FROM AP_HOLDS_ALL WHERE HOLD_ID = 1".data =
      Except.ok "SELECT * FROM AP_HOLDS_ALL WHERE RELEASE_LOOKUP_CODE IS NULL AND HOLD_LOOKUP_CODE IN ('QTY ORD', 'QTY REC', 'PRICE', 'AMT ORG') AND HOLD_ID = 1 FETCH FIRST 100 ROWS ONLY".data ∧
    (∃ B op fp,
      B = (splitOrder (splitFetch (preprocess (some appsStr)
            "SELECT * FROM AP_HOLDS_ALL WHERE HOLD_ID = 1".data)).1).1 ∧
      "SELECT * FROM AP_HOLDS_ALL WHERE RELEASE_LOOKUP_CODE IS NULL AND HOLD_LOOKUP_CODE IN ('QTY ORD', 'QTY REC', 'PRICE', 'AMT ORG') AND HOLD_ID = 1 FETCH FIRST 100 ROWS ONLY".data =
        assemble (injectWhere B) op fp ∧
      (whereSplit none B = none → injectWhere B = B ++ (" WHERE ".data ++ injectStr)) ∧
      (∀ p w q, whereSplit none B = some (p, w, q) →
        B = p ++ w ++ q ∧ w.map Char.toUpper = whereKW ∧ whereSplit none p = none ∧
          injectWhere B = p ++ ("WHERE ".data ++ injectStr ++ " AND".data) ++ q) ∧
      ("WHERE ".data ++ injectStr) <:+:
        "SELECT * FROM AP_HOLDS_ALL WHERE RELEASE_LOOKUP_CODE IS NULL AND HOLD_LOOKUP_CODE IN ('QTY ORD', 'QTY REC', 'PRICE', 'AMT ORG') AND HOLD_ID = 1 FETCH FIRST 100 ROWS ONLY".data) :=
  ⟨rfl, claim_C3 (some appsStr) "SELECT * FROM AP_HOLDS_ALL WHERE HOLD_ID = 1".data
    "SELECT * FROM AP_HOLDS_ALL WHERE RELEASE_LOOKUP_CODE IS NULL AND HOLD_LOOKUP_CODE IN ('QTY ORD', 'QTY REC', 'PRICE', 'AMT ORG') AND HOLD_ID = 1 FETCH FIRST 100 ROWS ONLY".data rfl⟩

/-- C5: on every statement that passes validation, if no row-limit
clause was found the returned statement ends with the default
`FETCH FIRST 100 ROWS ONLY`; if one was found, the extracted clause —
the stripped text of the statement from the first `FETCH FIRST` match
to the end of that line — terminates the returned statement. -/
theorem claim_C5 (vs : Option (List Char)) (s r : List Char)
    (h : cleanSql vs s = Except.ok r) :
    ((splitFetch (preprocess vs s)).2 = [] → defaultFetch <:+ r) ∧
    (∀ fp, (splitFetch (preprocess vs s)).2 = fp → fp ≠ [] →
      fp <:+ r ∧ ∃ i k, fetchFindAux none (preprocess vs s) = some (i, k) ∧
        fp = pyStrip (((preprocess vs s).drop i).take k)) := by
  obtain ⟨h0, h1, h2, hr⟩ := cleanSql_ok_inv h
  constructor
  · intro hfe
    rw [hr, hfe]
    simp only [List.isEmpty_nil, if_true]
    apply assemble_suffix (by decide)
    · intro c hc
      rw [show (defaultFetch.head? : Option Char) = some 'F' from rfl] at hc
      cases hc
      decide
    · intro c hc
      rw [show (defaultFetch.getLast? : Option Char) = some 'Y' from rfl] at hc
      cases hc
      decide
  · intro fp hfp hne
    have hex : ∃ i k, fetchFindAux none (preprocess vs s) = some (i, k) ∧
        fp = pyStrip (((preprocess vs s).drop i).take k) := by
      cases hf : fetchFindAux none (preprocess vs s) with
      | none =>
        exfalso
        apply hne
        rw [← hfp]
        simp [splitFetch, hf]
      | some ik =>
        obtain ⟨i, k⟩ := ik
        refine ⟨i, k, rfl, ?_⟩
        rw [← hfp]
        simp [splitFetch, hf]
    obtain ⟨i, k, hik, hfpz⟩ := hex
    refine ⟨?_, i, k, hik, hfpz⟩
    rw [hr, hfp, isEmpty_false_of_ne hne]
    simp only [Bool.false_eq_true, if_false]
    apply assemble_suffix hne
    · intro c hc
      rw [hfpz] at hc
      exact pyStrip_head_false hc
    · intro c hc
      rw [hfpz] at hc
      exact pyStrip_last_false hc

/-- C5 witness: a statement without a row-limit clause — the returned
statement ends with the default limit clause. -/
theorem claim_C5_witness :
    cleanSql (some appsStr) "SELECT COUNT(*) FROM AP_HOLDS_ALL".data =
      Except.ok "SELECT COUNT(*) FROM AP_HOLDS_ALL WHERE RELEASE_LOOKUP_CODE IS NULL AND HOLD_LOOKUP_CODE IN ('QTY ORD', 'QTY REC', 'PRICE', 'AMT ORG') FETCH FIRST 100 ROWS ONLY".data ∧
    (splitFetch (preprocess (some appsStr) "SELECT COUNT(*) FROM AP_HOLDS_ALL".data)).2 = [] ∧
    defaultFetch <:+ "SELECT COUNT(*) FROM AP_HOLDS_ALL WHERE RELEASE_LOOKUP_CODE IS NULL AND HOLD_LOOKUP_CODE IN ('QTY ORD', 'QTY REC', 'PRICE', 'AMT ORG') FETCH FIRST 100 ROWS ONLY".data :=
  ⟨rfl, rfl, (claim_C5 (some appsStr) "SELECT COUNT(*) FROM AP_HOLDS_ALL".data
    "SELECT COUNT(*) FROM AP_HOLDS_ALL WHERE RELEASE_LOOKUP_CODE IS NULL AND HOLD_LOOKUP_CODE IN ('QTY ORD', 'QTY REC', 'PRICE', 'AMT ORG') FETCH FIRST 100 ROWS ONLY".data rfl).1 rfl⟩

/-- C6 (amended): the default order clause is substituted exactly when
the split-off order clause is nonempty but fails the case-sensitive
column-reference test (the source compiles that one search without
`re.I`); an order clause that passes the case-sensitive test is carried
as written, and an absent order clause stays absent. The original claim
fails because the test is case-sensitive: a lowercase `order by col`
clause has a column reference yet is replaced by the default. -/
theorem claim_C6 (vs : Option (List Char)) (s r : List Char)
    (h : cleanSql vs s = Except.ok r) :
    ∃ op, op = (splitOrder (splitFetch (preprocess vs s)).1).2 ∧
      r = assemble (injectWhere (splitOrder (splitFetch (preprocess vs s)).1).1) (fixOrder op)
          (if (splitFetch (preprocess vs s)).2.isEmpty then defaultFetch
           else (splitFetch (preprocess vs s)).2) ∧
      (op = [] → fixOrder op = []) ∧
      (op ≠ [] → orderColCheck op = false → fixOrder op = defaultOrder) ∧
      (op ≠ [] → orderColCheck op = true → fixOrder op = op) := by
  obtain ⟨h0, h1, h2, hr⟩ := cleanSql_ok_inv h
  refine ⟨_, rfl, hr, ?_, ?_, ?_⟩
  · intro hop
    simp [fixOrder, hop]
  · intro hop hcol
    simp [fixOrder, isEmpty_false_of_ne hop, hcol]
  · intro hop hcol
    simp [fixOrder, isEmpty_false_of_ne hop, hcol]

/-- C6 witness: an uppercase `ORDER BY HOLD_DATE DESC` clause passes the
column-reference test and is carried into the output as written. -/
theorem claim_C6_witness :
    cleanSql (some appsStr) "SELECT * FROM AP_HOLDS_ALL ORDER BY HOLD_DATE DESC".data =
      Except.ok "SELECT * FROM AP_HOLDS_ALL WHERE RELEASE_LOOKUP_CODE IS NULL AND HOLD_LOOKUP_CODE IN ('QTY ORD', 'QTY REC', 'PRICE', 'AMT ORG') ORDER BY HOLD_DATE DESC FETCH FIRST 100 ROWS ONLY".data ∧
    (∃ op, op = (splitOrder (splitFetch (preprocess (some appsStr)
          "SELECT * FROM AP_HOLDS_ALL ORDER BY HOLD_DATE DESC".data)).1).2 ∧
      "SELECT * FROM AP_HOLDS_ALL WHERE RELEASE_LOOKUP_CODE IS NULL AND HOLD_LOOKUP_CODE IN ('QTY ORD', 'QTY REC', 'PRICE', 'AMT ORG') ORDER BY HOLD_DATE DESC FETCH FIRST 100 ROWS ONLY".data =
        assemble (injectWhere (splitOrder (splitFetch (preprocess (some appsStr)
            "SELECT * FROM AP_HOLDS_ALL ORDER BY HOLD_DATE DESC".data)).1).1) (fixOrder op)
          (if (splitFetch (preprocess (some appsStr)
              "SELECT * FROM AP_HOLDS_ALL ORDER BY HOLD_DATE DESC".data)).2.isEmpty
           then defaultFetch
           else (splitFetch (preprocess (some appsStr)
              "SELECT * FROM AP_HOLDS_ALL ORDER BY HOLD_DATE DESC".data)).2) ∧
      (op = [] → fixOrder op = []) ∧
      (op ≠ [] → orderColCheck op = false → fixOrder op = defaultOrder) ∧
      (op ≠ [] → orderColCheck op = true → fixOrder op = op)) :=
  ⟨rfl, claim_C6 (some appsStr) "SELECT * FROM AP_HOLDS_ALL ORDER BY HOLD_DATE DESC".data
    "SELECT * FROM AP_HOLDS_ALL WHERE RELEASE_LOOKUP_CODE IS NULL AND HOLD_LOOKUP_CODE IN ('QTY ORD', 'QTY REC', 'PRICE', 'AMT ORG') ORDER BY HOLD_DATE DESC FETCH FIRST 100 ROWS ONLY".data rfl⟩

/-- C6 counterexample: the order clause `order by hold_date` has a
column reference after `ORDER BY`, yet the case-sensitive check fails on
the lowercase text and the default order clause is substituted — the
clause is not carried into the output as written. -/
theorem claim_C6_counterexample :
    (splitOrder (splitFetch (preprocess (some appsStr)
        "SELECT * FROM AP_HOLDS_ALL order by hold_date".data)).1).2 =
      "order by hold_date".data ∧
    fixOrder "order by hold_date".data = defaultOrder ∧
    "order by hold_date".data ≠ defaultOrder ∧
    cleanSql (some appsStr) "SELECT * FROM AP_HOLDS_ALL order by hold_date".data =
      Except.ok "SELECT * FROM AP_HOLDS_ALL WHERE RELEASE_LOOKUP_CODE IS NULL AND HOLD_LOOKUP_CODE IN ('QTY ORD', 'QTY REC', 'PRICE', 'AMT ORG') ORDER BY \"HOLD_DATE\" ASC FETCH FIRST 100 ROWS ONLY".data ∧
    ¬("order by hold_date".data <:+:
      "SELECT * FROM AP_HOLDS_ALL WHERE RELEASE_LOOKUP_CODE IS NULL AND HOLD_LOOKUP_CODE IN ('QTY ORD', 'QTY REC', 'PRICE', 'AMT ORG') ORDER BY \"HOLD_DATE\" ASC FETCH FIRST 100 ROWS ONLY".data) :=
  ⟨rfl, rfl, by decide, rfl, by decide⟩
